import Mathlib

/-!
Verification development for the bank-statement-to-ledger conversion core
(`src/main.py`).  The Python functions `parse_bank_statement` and
`convert_to_zenmoney_format` are shallowly embedded as executable Lean
functions over `List Char`.  Python regular expressions are embedded as
hand-written matchers that reproduce the leftmost-match / greedy / lazy
backtracking behaviour of the specific patterns appearing in the source.
Python `float` arithmetic is modelled over `ℚ` (the amounts handled by the
program are short decimal numerals, exactly representable as doubles, so
rational arithmetic agrees with the source on every property proved here);
`round` is modelled as round-half-to-even, as in Python.  The model of
`float()` parsing covers plain decimal numerals (optional sign, digits,
optional single point); exponent / infinity / nan / underscore forms
accepted by Python never reach the parser in this program and are omitted.
-/

namespace PdfZen

/-- Whitespace as recognised by Python's `str.split`, `str.strip` and the
regex class `\s` (restricted to the ASCII range; the statements proved here
involve only ASCII whitespace). -/
def isSpace (c : Char) : Bool :=
  c = ' ' ∨ c = '\t' ∨ c = '\n' ∨ c = '\r' ∨ c = '\x0b' ∨ c = '\x0c'

/-- Numeric value of a digit character. -/
def digitVal (c : Char) : ℕ := c.toNat - 48

/-- The decimal digit character for `n < 10` (used to model `strftime`
zero-padded numeric output). -/
def dig (n : ℕ) : Char :=
  match n with
  | 0 => '0' | 1 => '1' | 2 => '2' | 3 => '3' | 4 => '4'
  | 5 => '5' | 6 => '6' | 7 => '7' | 8 => '8' | 9 => '9'
  | _ => '0'

/-- Two-digit zero-padded decimal rendering (`%02d`). -/
def pad2 (n : ℕ) : List Char := [dig (n / 10), dig (n % 10)]

/-- Four-digit zero-padded decimal rendering (`%04d` / `%Y`). -/
def pad4 (n : ℕ) : List Char :=
  [dig (n / 1000), dig (n / 100 % 10), dig (n / 10 % 10), dig (n % 10)]

/-- Python `str.strip`: drop leading and trailing whitespace. -/
def strip (l : List Char) : List Char :=
  ((l.dropWhile isSpace).reverse.dropWhile isSpace).reverse

/-- Predicate `listPre pat l`: holds when `pat` is a prefix of `l` (Boolean form used
by the regex matchers for literal fragments). -/
def listPre : List Char → List Char → Bool
  | [], _ => true
  | _ :: _, [] => false
  | a :: s, b :: t => a = b && listPre s t

/-- Python's substring containment `needle in haystack`. -/
def containsSub (needle : List Char) : List Char → Bool
  | [] => listPre needle []
  | l@(_ :: t) => listPre needle l || containsSub needle t

/-- Python `s.split(' в ')[0]`: the prefix of `l` before the first
occurrence of `sep`, or all of `l` when `sep` does not occur. -/
def takeBeforeSub (sep : List Char) : List Char → List Char
  | [] => []
  | l@(c :: t) => if listPre sep l then [] else c :: takeBeforeSub sep t

/-- Floor of a rational, computed directly from the numerator and
denominator (`Int.fdiv` is floor division). -/
def ratFloor (q : ℚ) : ℤ := Int.fdiv q.num (q.den : ℤ)

/-- Python's `round` on a number held exactly: round half to even.  The
fractional part `q - ⌊q⌋ = (q.num - ⌊q⌋ * q.den) / q.den` is compared with
`1/2` by cross-multiplication, keeping the whole computation in `ℤ`. -/
def pythonRound (q : ℚ) : ℤ :=
  let f := ratFloor q
  let rnum := q.num - f * (q.den : ℤ)
  if 2 * rnum < (q.den : ℤ) then f
  else if (q.den : ℤ) < 2 * rnum then f + 1
  else if f % 2 = 0 then f else f + 1

/-- Absolute value `|q|` through the sign of the numerator (Python `abs`). -/
def ratAbs (q : ℚ) : ℚ := if q.num < 0 then Rat.neg q else q

/-! ### Date normalization (`convert_to_zenmoney_format`, lines 194–258)

The source tries an ordered list of `strptime` templates on the text before
the first `" в "`, then falls back to a digit-group regex with a
day-first / month-first disambiguation.  `strptime` directives are modelled
by the regexes CPython's `_strptime` compiles them to:
`%d ↦ 3[01]|[12]\d|0[1-9]|[1-9]`, `%m ↦ 1[0-2]|0[1-9]|[1-9]`,
`%Y ↦ \d{4}`, `%H ↦ 2[0-3]|[0-1]\d|\d`, `%M ↦ [0-5]\d|\d`; a template
succeeds only if it consumes the whole string and the resulting calendar
date is constructible (`datetime` raises otherwise). -/

/-- A 1–2 digit numeric field: two digits are consumed when their value
lies in `[lo, hi]`, otherwise one digit with value at least `lo`.  This is
the exact acceptance set of the alternations CPython compiles `%d`, `%m`,
`%H`, `%M` to. -/
def numField (lo hi : ℕ) : List Char → Option (ℕ × List Char)
  | c1 :: c2 :: rest =>
    if c1.isDigit ∧ c2.isDigit ∧ lo ≤ 10 * digitVal c1 + digitVal c2 ∧
        10 * digitVal c1 + digitVal c2 ≤ hi then
      some (10 * digitVal c1 + digitVal c2, rest)
    else if c1.isDigit ∧ lo ≤ digitVal c1 then some (digitVal c1, c2 :: rest)
    else none
  | [c1] => if c1.isDigit ∧ lo ≤ digitVal c1 then some (digitVal c1, []) else none
  | [] => none

/-- Directive `%d`: day field, values 1–31. -/
def matchD : List Char → Option (ℕ × List Char) := numField 1 31

/-- Directive `%m`: month field, values 1–12. -/
def matchM : List Char → Option (ℕ × List Char) := numField 1 12

/-- Directive `%H`: hour field, values 0–23. -/
def matchH : List Char → Option (ℕ × List Char) := numField 0 23

/-- Directive `%M`: minute field, values 0–59. -/
def matchMin : List Char → Option (ℕ × List Char) := numField 0 59

/-- Directive `%Y`: exactly four digits. -/
def matchY : List Char → Option (ℕ × List Char)
  | c1 :: c2 :: c3 :: c4 :: rest =>
    if c1.isDigit ∧ c2.isDigit ∧ c3.isDigit ∧ c4.isDigit then
      some (1000 * digitVal c1 + 100 * digitVal c2 + 10 * digitVal c3 +
        digitVal c4, rest)
    else none
  | _ => none

/-- A single literal character of a template. -/
def litC (c : Char) : List Char → Option (List Char)
  | d :: rest => if d = c then some rest else none
  | [] => none

/-- Gregorian leap year, as implemented by Python's `datetime`. -/
def isLeap (y : ℕ) : Bool := (y % 4 = 0 ∧ y % 100 ≠ 0) ∨ y % 400 = 0

/-- Days in a month, as implemented by Python's `datetime` (month 1–12). -/
def daysInMonth (y m : ℕ) : ℕ :=
  if m = 2 then (if isLeap y then 29 else 28)
  else if m = 4 ∨ m = 6 ∨ m = 9 ∨ m = 11 then 30
  else 31

/-- Whether `datetime(y, m, d)` is constructible: Python's validity check
(`MINYEAR = 1`, `MAXYEAR = 9999`). -/
def validDate (y m d : ℕ) : Bool :=
  1 ≤ y ∧ y ≤ 9999 ∧ 1 ≤ m ∧ m ≤ 12 ∧ 1 ≤ d ∧ d ≤ daysInMonth y m

/-- Template `'%d.%m.%Y'`. -/
def fmt1 (l : List Char) : Option (ℕ × ℕ × ℕ) :=
  match matchD l with
  | none => none
  | some (d, r1) =>
    match litC '.' r1 with
    | none => none
    | some r2 =>
      match matchM r2 with
      | none => none
      | some (m, r3) =>
        match litC '.' r3 with
        | none => none
        | some r4 =>
          match matchY r4 with
          | none => none
          | some (y, r5) =>
            if r5 = [] ∧ validDate y m d then some (y, m, d) else none

/-- Template `'%d.%m.%Y в %H:%M'`. -/
def fmt2 (l : List Char) : Option (ℕ × ℕ × ℕ) :=
  match matchD l with
  | none => none
  | some (d, r1) =>
    match litC '.' r1 with
    | none => none
    | some r2 =>
      match matchM r2 with
      | none => none
      | some (m, r3) =>
        match litC '.' r3 with
        | none => none
        | some r4 =>
          match matchY r4 with
          | none => none
          | some (y, r5) =>
            match litC ' ' r5 with
            | none => none
            | some r6 =>
              match litC 'в' r6 with
              | none => none
              | some r7 =>
                match litC ' ' r7 with
                | none => none
                | some r8 =>
                  match matchH r8 with
                  | none => none
                  | some (_, r9) =>
                    match litC ':' r9 with
                    | none => none
                    | some r10 =>
                      match matchMin r10 with
                      | none => none
                      | some (_, r11) =>
                        if r11 = [] ∧ validDate y m d then some (y, m, d)
                        else none

/-- Template `'%Y-%m-%d'`. -/
def fmt3 (l : List Char) : Option (ℕ × ℕ × ℕ) :=
  match matchY l with
  | none => none
  | some (y, r1) =>
    match litC '-' r1 with
    | none => none
    | some r2 =>
      match matchM r2 with
      | none => none
      | some (m, r3) =>
        match litC '-' r3 with
        | none => none
        | some r4 =>
          match matchD r4 with
          | none => none
          | some (d, r5) =>
            if r5 = [] ∧ validDate y m d then some (y, m, d) else none

/-- Template `'%d/%m/%Y'`. -/
def fmt4 (l : List Char) : Option (ℕ × ℕ × ℕ) :=
  match matchD l with
  | none => none
  | some (d, r1) =>
    match litC '/' r1 with
    | none => none
    | some r2 =>
      match matchM r2 with
      | none => none
      | some (m, r3) =>
        match litC '/' r3 with
        | none => none
        | some r4 =>
          match matchY r4 with
          | none => none
          | some (y, r5) =>
            if r5 = [] ∧ validDate y m d then some (y, m, d) else none

/-- Template `'%Y.%m.%d'`. -/
def fmt5 (l : List Char) : Option (ℕ × ℕ × ℕ) :=
  match matchY l with
  | none => none
  | some (y, r1) =>
    match litC '.' r1 with
    | none => none
    | some r2 =>
      match matchM r2 with
      | none => none
      | some (m, r3) =>
        match litC '.' r3 with
        | none => none
        | some r4 =>
          match matchD r4 with
          | none => none
          | some (d, r5) =>
            if r5 = [] ∧ validDate y m d then some (y, m, d) else none

/-- The ordered template list of the source (first success wins). -/
def tryFormats (l : List Char) : Option (ℕ × ℕ × ℕ) :=
  (fmt1 l).orElse fun _ => (fmt2 l).orElse fun _ =>
    (fmt3 l).orElse fun _ => (fmt4 l).orElse fun _ => fmt5 l

/-- Rendering `dt.strftime('%Y-%m-%d')`.  `%Y` output for years below 1000 is
platform dependent (glibc prints them unpadded); the model zero-pads, and
every theorem below restricts to four-digit years, where all platforms
agree. -/
def isoOf (y m d : ℕ) : List Char :=
  pad4 y ++ '-' :: pad2 m ++ '-' :: pad2 d

/-- A 2-digit group of the fallback regex `(\d{1,2})[./](\d{1,2})[./](\d{4})`. -/
def matchG2 : List Char → Option (ℕ × List Char)
  | a :: b :: t =>
    if a.isDigit ∧ b.isDigit then some (10 * digitVal a + digitVal b, t)
    else none
  | _ => none

/-- A 1-digit group of the fallback regex. -/
def matchG1 : List Char → Option (ℕ × List Char)
  | a :: t => if a.isDigit then some (digitVal a, t) else none
  | [] => none

/-- The separator class `[./]` of the fallback regex. -/
def sepDot : List Char → Option (List Char)
  | c :: t => if c = '.' ∨ c = '/' then some t else none
  | [] => none

/-- Four digits of the fallback regex year group (no end anchor). -/
def matchY4 (l : List Char) : Option ℕ :=
  match matchY l with
  | some (y, _) => some y
  | none => none

/-- Second group and year of the fallback regex, with the greedy 2-then-1
digit backtracking of `\d{1,2}`. -/
def dmyTail (a : ℕ) (r : List Char) : Option (ℕ × ℕ × ℕ) :=
  (match matchG2 r with
   | some (b, r2) =>
     (match sepDot r2 with
      | some r3 => (matchY4 r3).map fun y => (a, b, y)
      | none => none)
   | none => none).orElse fun _ =>
  match matchG1 r with
  | some (b, r2) =>
    (match sepDot r2 with
     | some r3 => (matchY4 r3).map fun y => (a, b, y)
     | none => none)
  | none => none

/-- Match of the fallback regex at the current position. -/
def matchDMYAt (l : List Char) : Option (ℕ × ℕ × ℕ) :=
  (match matchG2 l with
   | some (a, r) =>
     (match sepDot r with
      | some r2 => dmyTail a r2
      | none => none)
   | none => none).orElse fun _ =>
  match matchG1 l with
  | some (a, r) =>
    (match sepDot r with
     | some r2 => dmyTail a r2
     | none => none)
  | none => none

/-- Model of `re.search`: first position (left to right) at which a matcher
succeeds. -/
def searchM (m : List Char → Option α) : List Char → Option α
  | [] => m []
  | l@(_ :: t) => (m l).orElse fun _ => searchM m t

/-- The fallback branch of the date conversion (source lines 222–254):
regex search for three digit groups and day-first / month-first
disambiguation; any `datetime` failure is swallowed and yields `none`. -/
def regexFallback (l : List Char) : Option (List Char) :=
  match searchM matchDMYAt l with
  | none => none
  | some (a, b, y) =>
    if 12 < a then (if validDate y b a then some (isoOf y b a) else none)
    else if 12 < b then (if validDate y a b then some (isoOf y a b) else none)
    else if validDate y b a then some (isoOf y b a)
    else if validDate y a b then some (isoOf y a b)
    else none

/-- Date conversion of `convert_to_zenmoney_format` (lines 194–258): strip,
split off the `' в '` time suffix, try the `strptime` templates in order,
then the digit-group fallback on the stripped full string. -/
def normalizeDate (dateStr : List Char) : Option (List Char) :=
  let dateStrClean := strip dateStr
  let datePart := strip (takeBeforeSub (' ' :: 'в' :: [' ']) dateStrClean)
  match tryFormats datePart with
  | some (y, m, d) => some (isoOf y m d)
  | none => regexFallback dateStrClean

/-! ### Amount parsing (`convert_to_zenmoney_format`, lines 260–296) -/

/-- Decimal value of a digit string. -/
def natVal (l : List Char) : ℕ := l.foldl (fun acc c => 10 * acc + digitVal c) 0

/-- Python `float()` on a plain decimal numeral: optional sign, integer
digits, optional point, fraction digits, at least one digit overall, whole
string consumed.  (Exponent / inf / nan / underscore forms never occur in
this program and are not modelled.) -/
def pyFloat? (l : List Char) : Option ℚ :=
  let core : List Char → Option ℚ := fun s =>
    let ip := s.takeWhile Char.isDigit
    let rest := s.dropWhile Char.isDigit
    match rest with
    | [] => if ip = [] then none else some (mkRat (natVal ip) 1)
    | '.' :: fr =>
      let fd := fr.takeWhile Char.isDigit
      let rest2 := fr.dropWhile Char.isDigit
      if rest2 = [] ∧ ¬(ip = [] ∧ fd = []) then
        some (mkRat (natVal ip * 10 ^ fd.length + natVal fd) (10 ^ fd.length))
      else none
    | _ => none
  match l with
  | '+' :: t => core t
  | '-' :: t => (core t).map Rat.neg
  | _ => core l

/-- Amount parsing of `convert_to_zenmoney_format` (lines 260–296): remove
all whitespace (`''.join(s.split())`), read an optional leading sign from
`{-, –, +}`, replace every comma by a period, parse as a float, force the
sign, and round (`int(round(x))`); any parse failure is caught and yields
`none`. -/
def parseAmountCents (amountStr : List Char) : Option ℤ :=
  let clean0 := amountStr.filter fun c => ¬ isSpace c
  let isNeg := clean0.head? = some '-' ∨ clean0.head? = some '–'
  let isPos := clean0.head? = some '+'
  let clean1 := if isNeg ∨ isPos then clean0.tail else clean0
  let clean2 := clean1.map fun c => if c = ',' then '.' else c
  match pyFloat? clean2 with
  | none => none
  | some q =>
    let q' := if isNeg then Rat.neg (ratAbs q) else ratAbs q
    some (pythonRound q')

/-! ### Payee extraction (`convert_to_zenmoney_format`, lines 301–316) -/

/-- Maximal run of characters satisfying `p`, required nonempty
(a greedy `[...]+` class at the end of a pattern). -/
def plusRun (p : Char → Bool) (l : List Char) : Option (List Char) :=
  let run := l.takeWhile p
  if run = [] then none else some run

/-- Matcher for `'Входящий перевод СБП, ([^,]+)'` and its outgoing twin:
a literal followed by a nonempty greedy run of non-comma characters. -/
def matchLitThen (lit : List Char) (p : Char → Bool) (l : List Char) :
    Option (List Char) :=
  if listPre lit l then plusRun p (l.drop lit.length) else none

/-- Character class `[A-Z_0-9]` of the third payee pattern. -/
def isMerchChar (c : Char) : Bool :=
  ('A' ≤ c ∧ c ≤ 'Z') ∨ c = '_' ∨ ('0' ≤ c ∧ c ≤ '9')

/-- Payee extraction (lines 301–316): the three patterns are tried in
order; the first whose `re.search` succeeds contributes its stripped
capture. -/
def extractPayee (description : List Char) : Option (List Char) :=
  match searchM
      (matchLitThen (String.toList "Входящий перевод СБП, ") fun c => c ≠ ',')
      description with
  | some cap => some (strip cap)
  | none =>
    match searchM
        (matchLitThen (String.toList "Исходящий перевод СБП, ") fun c => c ≠ ',')
        description with
    | some cap => some (strip cap)
    | none =>
      match searchM
          (matchLitThen (String.toList "Оплата товаров и услуг ") isMerchChar)
          description with
      | some cap => some (strip cap)
      | none => none

/-! ### `convert_to_zenmoney_format` (lines 141–351)

The resolution data fetched from the ledger service is modelled as an
explicit value; identifiers are opaque naturals.  The generated `uuid` and
the `mcc`/`tag`/`bankID`/`op*`/coordinate fields, which are constant
(`None`/`[]`) or environment-supplied and referenced by no claim, are not
carried; the single `'now'` timestamp is an explicit parameter. -/

/-- One entry of `zenmoney_data['account']`. -/
structure Account where
  id : ℕ
  title : List Char
  deriving DecidableEq, Repr

/-- One entry of `zenmoney_data['instrument']`. -/
structure Instrument where
  id : ℕ
  shortTitle : List Char
  fullTitle : List Char
  deriving DecidableEq, Repr

/-- The resolution context fetched once per batch. -/
structure ZenData where
  accounts : List Account
  instruments : List Instrument
  users : List ℕ
  deriving DecidableEq, Repr

/-- One parsed statement row (`parse_bank_statement` output dict); absent
keys are the empty string, as produced by `.get(…, '')`. -/
structure IntermediateTxn where
  description : List Char
  transactionDateTime : List Char
  processingDate : List Char
  card : List Char
  transactionAmount : List Char
  accountAmount : List Char
  deriving DecidableEq, Repr

/-- The ledger-shaped record assembled per transaction (fields referenced
by the specification's claims). -/
structure ZenTxn where
  user : ℕ
  deleted : Bool
  incomeInstrument : ℕ
  incomeAccount : Option ℕ
  income : ℤ
  outcomeInstrument : ℕ
  outcomeAccount : Option ℕ
  outcome : ℤ
  payee : Option (List Char)
  comment : List Char
  date : List Char
  created : ℕ
  changed : ℕ
  deriving DecidableEq, Repr

/-- Python `txn.get('Processing_Date', '') or txn.get('Transaction_DateTime', '')`. -/
def effDate (txn : IntermediateTxn) : List Char :=
  if txn.processingDate = [] then txn.transactionDateTime else txn.processingDate

/-- Python `txn.get('Account_Amount', '') or txn.get('Transaction_Amount', '')`. -/
def effAmount (txn : IntermediateTxn) : List Char :=
  if txn.accountAmount = [] then txn.transactionAmount else txn.accountAmount

/-- The per-transaction body of the conversion loop (lines 184–349):
`none` models every `continue`. -/
def convertStep (accountId rubInstrument userId ts : ℕ)
    (txn : IntermediateTxn) : Option ZenTxn :=
  let description := strip txn.description
  let dateStr := effDate txn
  let amountStr := effAmount txn
  if description = [] ∨ dateStr = [] ∨ amountStr = [] then none
  else
    match normalizeDate dateStr with
    | none => none
    | some date =>
      match parseAmountCents amountStr with
      | none => none
      | some amountInCents =>
        if amountInCents = 0 then none
        else
          let isIncome := amountStr.head? = some '+'
          some
            { user := userId
              deleted := false
              incomeInstrument := rubInstrument
              incomeAccount := if isIncome then some accountId else none
              income := if isIncome then amountInCents else 0
              outcomeInstrument := rubInstrument
              outcomeAccount := if isIncome then none else some accountId
              outcome := if isIncome then 0
                         else (if amountInCents < 0 then -amountInCents
                               else amountInCents)
              payee := extractPayee description
              comment := description
              date := date
              created := ts
              changed := ts }

/-- The title/`'RUB'` predicate of the instrument loop (lines 172–176). -/
def isRub (inst : Instrument) : Bool :=
  inst.shortTitle = String.toList "RUB" ∨
    inst.fullTitle = String.toList "Российский рубль"

/-- Function `convert_to_zenmoney_format` (lines 141–351): resolve the account by
exact title and the ruble instrument, aborting with the source's error
messages on failure (Python truthiness also rejects a found instrument
whose id is `0`), then convert every transaction of the batch. -/
def convert_to_zenmoney_format (data : ZenData) (accountTitle : List Char)
    (ts : ℕ) (transactions : List IntermediateTxn) :
    Except (List Char) (List ZenTxn) :=
  match (data.accounts.filter fun a => a.title = accountTitle).map Account.id with
  | [] =>
    .error (String.toList "Не найден счет с названием " ++ accountTitle)
  | accountId :: _ =>
    let userId := match data.users with | [] => 1 | u :: _ => u
    match data.instruments.find? isRub with
    | none => .error (String.toList "Не найден инструмент для рубля")
    | some inst =>
      if inst.id = 0 then
        .error (String.toList "Не найден инструмент для рубля")
      else
        .ok (transactions.filterMap (convertStep accountId inst.id userId ts))

/-! ### `parse_bank_statement` (lines 21–110)

The four boilerplate substitutions, the date-time anchor scan, the
description cleanup, and the field extraction are embedded as matchers
with Python `re` semantics: a matcher inspects the current position and
returns the matched length (with captures); scanning is leftmost,
non-overlapping, advancing past each match. -/

/-- Greedy digit run (`\d+`), at least one digit.  Returns (run length,
rest). -/
def digitRun (l : List Char) : Option (ℕ × List Char) :=
  let run := l.takeWhile Char.isDigit
  if run = [] then none else some (run.length, l.dropWhile Char.isDigit)

/-- Matcher for `'Страница \d+ из \d+'` (match length). -/
def matchPage (l : List Char) : Option ℕ :=
  let lit1 := String.toList "Страница "
  if listPre lit1 l then
    match digitRun (l.drop lit1.length) with
    | none => none
    | some (k1, r1) =>
      let lit2 := String.toList " из "
      if listPre lit2 r1 then
        match digitRun (r1.drop lit2.length) with
        | none => none
        | some (k2, _) => some (lit1.length + k1 + lit2.length + k2)
      else none
  else none

/-- Matcher for the literal `'Продолжение на следующей странице'`. -/
def matchCont (l : List Char) : Option ℕ :=
  let lit := String.toList "Продолжение на следующей странице"
  if listPre lit l then some lit.length else none

/-- Lazy `.*?` up to the first `'₽'` with no newline in between (the `.`
of the balance patterns): returns the consumed length including the
`'₽'`. -/
def lazyToRuble : List Char → Option ℕ
  | [] => none
  | c :: t =>
    if c = '₽' then some 1
    else if c = '\n' then none
    else (lazyToRuble t).map (· + 1)

/-- Matcher for `'Входящий остаток.*?₽'` / `'Исходящий остаток.*?₽'`. -/
def matchBalance (lit : List Char) (l : List Char) : Option ℕ :=
  if listPre lit l then
    (lazyToRuble (l.drop lit.length)).map (lit.length + ·)
  else none

/-- Model of `re.sub(pattern, '', text)`: leftmost scan, each match removed, the
scan resuming after the removed text.  (The patterns used here never match
the empty string, so every step consumes at least one character; the fuel
argument of the worker only bounds the recursion and never runs out when
it starts at the length of the text.) -/
def subAllF (m : List Char → Option ℕ) : ℕ → List Char → List Char
  | 0, l => l
  | _ + 1, [] => []
  | fuel + 1, c :: t =>
    match m (c :: t) with
    | some k => subAllF m fuel (t.drop (k - 1))
    | none => c :: subAllF m fuel t

/-- Model of `re.sub(pattern, '', text)` with the fuel instantiated. -/
def subAll (m : List Char → Option ℕ) (l : List Char) : List Char :=
  subAllF m l.length l

/-- The boilerplate-stripping prelude of `parse_bank_statement`
(lines 28–32), in source order. -/
def sanitize (text : List Char) : List Char :=
  subAll (matchBalance (String.toList "Исходящий остаток"))
    (subAll (matchBalance (String.toList "Входящий остаток"))
      (subAll matchCont (subAll matchPage text)))

/-- Exactly two digits (`\d{2}` inside the anchor and processing-date
patterns). -/
def twoDigits : List Char → Option (List Char × List Char)
  | c1 :: c2 :: rest =>
    if c1.isDigit ∧ c2.isDigit then some ([c1, c2], rest) else none
  | _ => none

/-- Pattern `\d{2}\.\d{2}\.\d{4}`: a bare date; returns its ten characters and the
rest. -/
def matchBareDate (l : List Char) : Option (List Char × List Char) :=
  match twoDigits l with
  | none => none
  | some (d1, r1) =>
    match litC '.' r1 with
    | none => none
    | some r2 =>
      match twoDigits r2 with
      | none => none
      | some (d2, r3) =>
        match litC '.' r3 with
        | none => none
        | some r4 =>
          match twoDigits r4 with
          | none => none
          | some (d3, r5) =>
            match twoDigits r5 with
            | none => none
            | some (d4, r6) =>
              some (d1 ++ '.' :: d2 ++ '.' :: d3 ++ d4, r6)

/-- The anchor pattern `(\d{2}\.\d{2}\.\d{4})\s+в\s+(\d{2}:\d{2})`:
returns (date capture, time capture, total match length). -/
def matchAnchor (l : List Char) : Option (List Char × List Char × ℕ) :=
  match matchBareDate l with
  | none => none
  | some (dateStr, r1) =>
    let ws1 := r1.takeWhile isSpace
    if ws1 = [] then none
    else
      match litC 'в' (r1.drop ws1.length) with
      | none => none
      | some r2 =>
        let ws2 := r2.takeWhile isSpace
        if ws2 = [] then none
        else
          match twoDigits (r2.drop ws2.length) with
          | none => none
          | some (h, r3) =>
            match litC ':' r3 with
            | none => none
            | some r4 =>
              match twoDigits r4 with
              | none => none
              | some (mi, _) =>
                some (dateStr, h ++ ':' :: mi,
                  10 + ws1.length + 1 + ws2.length + 5)

/-- Model of `re.finditer` over the anchor pattern: every match with its start and
end offset, scanning left to right and resuming after each match. -/
def anchorsFromF : ℕ → ℕ → List Char → List (ℕ × ℕ × List Char × List Char)
  | 0, _, _ => []
  | _ + 1, _, [] => []
  | fuel + 1, pos, c :: t =>
    match matchAnchor (c :: t) with
    | some (d, tm, k) =>
      (pos, pos + k, d, tm) :: anchorsFromF fuel (pos + k) (t.drop (k - 1))
    | none => anchorsFromF fuel (pos + 1) t

/-- The anchor scan with the fuel instantiated. -/
def anchorsFrom (pos : ℕ) (l : List Char) :
    List (ℕ × ℕ × List Char × List Char) :=
  anchorsFromF l.length pos l

/-- Fragment `\s*` then end-of-line (`$` under `re.MULTILINE`): the greedy
whitespace run, backtracking to the longest position that sits at the end
of the string or immediately before a newline; returns the consumed
length. -/
def wsToEol : List Char → Option ℕ
  | [] => some 0
  | c :: t =>
    if isSpace c then
      match wsToEol t with
      | some j => some (j + 1)
      | none => if c = '\n' then some 0 else none
    else if c = '\n' then some 0 else none

/-- Lazy `.*?₽\s*$` of the description-cleanup pattern: candidates for the
`'₽'` are visited left to right over non-newline characters and the first
whose `\s*$` tail succeeds wins; a failed candidate is consumed by `.*?`
and the scan continues. -/
def lazyRubleEol : List Char → Option ℕ
  | [] => none
  | c :: t =>
    if c = '₽' then
      match wsToEol t with
      | some j => some (1 + j)
      | none => if c = '\n' then none else (lazyRubleEol t).map (· + 1)
    else if c = '\n' then none
    else (lazyRubleEol t).map (· + 1)

/-- Matcher for `re.sub(r'[+\-–]\s*\d.*?₽\s*$', '', description,
flags=re.MULTILINE)` at the current position (match length). -/
def matchDescAmt (l : List Char) : Option ℕ :=
  match l with
  | c :: t =>
    if c = '+' ∨ c = '-' ∨ c = '–' then
      let ws := t.takeWhile isSpace
      match t.drop ws.length with
      | d :: t2 =>
        if d.isDigit then
          (lazyRubleEol t2).map (1 + ws.length + 1 + ·)
        else none
      | [] => none
    else none
  | [] => none

/-- Model of `re.sub(r'\s+', ' ', s)`: every maximal whitespace run becomes one
space. -/
def collapseWsF : ℕ → List Char → List Char
  | 0, l => l
  | _ + 1, [] => []
  | fuel + 1, c :: t =>
    if isSpace c then ' ' :: collapseWsF fuel (t.dropWhile isSpace)
    else c :: collapseWsF fuel t

/-- Model of `re.sub(r'\s+', ' ', s)` with the fuel instantiated. -/
def collapseWs (l : List Char) : List Char := collapseWsF l.length l

/-- The description cleanup (lines 58–61): strip the slice, remove a
trailing amount, collapse whitespace, strip. -/
def cleanDescription (slice : List Char) : List Char :=
  strip (collapseWs (subAll matchDescAmt (strip slice)))

/-- Matcher for the card pattern `\*(\d{4,5})` (returns `'*' + capture`). -/
def matchCard : List Char → Option (List Char)
  | '*' :: t =>
    let ds := t.takeWhile Char.isDigit
    if 4 ≤ ds.length then some ('*' :: ds.take 5) else none
  | _ => none

/-- Tail `\s*₽` of the amount pattern: greedy whitespace then the currency
mark; returns the consumed length. -/
def amtEnd (l : List Char) : Option ℕ :=
  let ws := l.takeWhile isSpace
  match l.drop ws.length with
  | '₽' :: _ => some (ws.length + 1)
  | _ => none

/-- Optional `(?:,\d{2})?` then `\s*₽`, greedy (the comma branch is
preferred, backtracking to the empty branch): returns (captured part,
consumed length). -/
def amtOpt (l : List Char) : Option (List Char × ℕ) :=
  (match l with
   | ',' :: a :: b :: t =>
     if a.isDigit ∧ b.isDigit then
       (amtEnd t).map fun k => ([',', a, b], 3 + k)
     else none
   | _ => none).orElse fun _ =>
    (amtEnd l).map fun k => (([] : List Char), k)

/-- Greedy `(?:\s+\d{3})*` then the optional decimal part and `\s*₽`:
more repetitions are preferred, backtracking one repetition at a time. -/
def amtStarF : ℕ → List Char → Option (List Char × ℕ)
  | 0, _ => none
  | fuel + 1, l =>
    (if l.takeWhile isSpace = [] then none
     else
       match l.drop (l.takeWhile isSpace).length with
       | a :: b :: c :: t =>
         if a.isDigit ∧ b.isDigit ∧ c.isDigit then
           match amtStarF fuel t with
           | some (cap, k) =>
             some (l.takeWhile isSpace ++ a :: b :: c :: cap,
               (l.takeWhile isSpace).length + 3 + k)
           | none => none
         else none
       | _ => none).orElse fun _ => amtOpt l

/-- The starred thousands groups with the fuel instantiated (every
repetition consumes at least four characters, so fuel equal to the length
of the text never runs out). -/
def amtStar (l : List Char) : Option (List Char × ℕ) := amtStarF l.length l

/-- The numeral group `(\d{1,3}(?:\s+\d{3})*(?:,\d{2})?)`: one to three
leading digits, greedy (three preferred, backtracking to two, then one),
each followed by the starred thousands groups and the optional decimal
part; returns (capture, consumed length including the trailing `\s*₽`). -/
def amtNum (l : List Char) : Option (List Char × ℕ) :=
  let tryK : ℕ → Option (List Char × ℕ) := fun k =>
    let ds := l.take k
    if ds.length = k ∧ ds.all Char.isDigit then
      (amtStar (l.drop k)).map fun (cap, n) => (ds ++ cap, k + n)
    else none
  (tryK 3).orElse fun _ => (tryK 2).orElse fun _ => tryK 1

/-- Matcher for the amount pattern
`([+\-–])\s*(\d{1,3}(?:\s+\d{3})*(?:,\d{2})?)\s*₽`: returns ((sign
capture, numeral capture), match length). -/
def matchAmount : List Char → Option ((Char × List Char) × ℕ)
  | s :: t =>
    if s = '+' ∨ s = '-' ∨ s = '–' then
      let ws := t.takeWhile isSpace
      (amtNum (t.drop ws.length)).map fun (v, n) =>
        ((s, v), 1 + ws.length + n)
    else none
  | [] => none

/-- Model of the `re.findall` / `re.search` driver returning every capture, scanning
left to right and resuming after each match. -/
def findAllMF (m : List Char → Option (α × ℕ)) : ℕ → List Char → List α
  | 0, _ => []
  | _ + 1, [] => []
  | fuel + 1, c :: t =>
    match m (c :: t) with
    | some (a, k) => a :: findAllMF m fuel (t.drop (k - 1))
    | none => findAllMF m fuel t

/-- The findall driver with the fuel instantiated. -/
def findAllM (m : List Char → Option (α × ℕ)) (l : List Char) : List α :=
  findAllMF m l.length l

/-- Function `clean_amount` (lines 84–89): drop the spaces of the numeral, turn the
decimal comma into a period, normalize an en dash sign to minus, and
prepend the sign. -/
def clean_amount (sign : Char) (value : List Char) : List Char :=
  let cleaned := (value.filter fun c => c ≠ ' ').map
    fun c => if c = ',' then '.' else c
  (if sign = '–' then '-' else sign) :: cleaned

/-- The header/footer keywords whose presence in a description discards
the segment (line 95). -/
def serviceWords : List (List Char) :=
  [String.toList "Описание операции", String.toList "Дата и время",
   String.toList "МСК", String.toList "Страница"]

/-- The per-anchor body of the segmentation loop (lines 45–108): the
description is the text between the previous anchor's end and this
anchor's start; the processing date, optional card and the first two
amounts are searched in the whole text after the anchor; the segment is
discarded when the processing date or a second amount is missing, when the
description carries a service keyword, or when it is shorter than five
characters. -/
def segmentAt (text : List Char) (prevEnd start stop : ℕ)
    (dateStr timeStr : List Char) : Option IntermediateTxn :=
  let description := cleanDescription ((text.drop prevEnd).take (start - prevEnd))
  let afterDate := text.drop stop
  match searchM (fun l => (matchBareDate l).map Prod.fst) afterDate with
  | none => none
  | some processingDate =>
    let card := (searchM matchCard afterDate).getD []
    match findAllM matchAmount afterDate with
    | (s1, v1) :: (s2, v2) :: _ =>
      if serviceWords.any (fun w => containsSub w description) then none
      else if description.length < 5 then none
      else
        some
          { description := description
            transactionDateTime := dateStr ++ ' ' :: 'в' :: ' ' :: timeStr
            processingDate := processingDate
            card := card
            transactionAmount := clean_amount s1 v1
            accountAmount := clean_amount s2 v2 }
    | _ => none

/-- The segmentation loop over all anchors; `prevEnd` is the end offset of
the previous anchor (zero for the first) regardless of whether that
segment was emitted. -/
def segLoop (text : List Char) :
    ℕ → List (ℕ × ℕ × List Char × List Char) → List IntermediateTxn
  | _, [] => []
  | prevEnd, (start, stop, d, tm) :: rest =>
    match segmentAt text prevEnd start stop d tm with
    | some txn => txn :: segLoop text stop rest
    | none => segLoop text stop rest

/-- Function `parse_bank_statement` (lines 21–110): sanitize the text, locate every
date-time anchor, and extract one `IntermediateTxn` per valid segment, in
document order. -/
def parse_bank_statement (rawText : List Char) : List IntermediateTxn :=
  let text := sanitize rawText
  segLoop text 0 (anchorsFrom 0 text)

/-! ### Claim-level predicates and concrete fixtures -/

/-- Resolution fixture for the witnesses: one account, the ruble
instrument, one user. -/
def rubInstW : Instrument :=
  ⟨7, String.toList "RUB", String.toList "Российский рубль"⟩

/-- Resolution context used by the concrete witnesses. -/
def dataW : ZenData := ⟨[⟨42, String.toList "yandex bank"⟩], [rubInstW], [3]⟩

/-- A parsed transaction whose amount string carries no leading sign. -/
def txnNoSignW : IntermediateTxn :=
  ⟨String.toList "Перевод на карту", String.toList "01.02.2025 в 10:11",
   String.toList "02.02.2025", [], String.toList "100", String.toList "100"⟩

/-- As `txnNoSignW` with amount `200` (fixture of the C4 counterexample). -/
def txnNoSignW2 : IntermediateTxn :=
  ⟨String.toList "Перевод на карту", String.toList "01.02.2025 в 10:11",
   String.toList "02.02.2025", [], String.toList "200", String.toList "200"⟩

/-- A parsed transaction whose amount string normalizes to exactly zero. -/
def txnZeroW : IntermediateTxn :=
  ⟨String.toList "Перевод на карту", String.toList "01.02.2025 в 10:11",
   String.toList "02.02.2025", [], String.toList "+0,40", String.toList "+0,40"⟩

/-- A parsed transaction with an explicit `+` sign. -/
def txnPlusW : IntermediateTxn :=
  ⟨String.toList "Оплата товаров и услуг OZON", String.toList "01.02.2025 в 10:11",
   String.toList "02.02.2025", [], String.toList "+1200.50", String.toList "+1200.50"⟩

/-- The record the conversion assembles from `txnNoSignW` under `dataW`
(outcome side, since the raw amount string has no `+`). -/
def zNoSignW : ZenTxn :=
  { user := 3, deleted := false, incomeInstrument := 7,
    incomeAccount := none, income := 0, outcomeInstrument := 7,
    outcomeAccount := some 42, outcome := 100, payee := none,
    comment := String.toList "Перевод на карту",
    date := String.toList "2025-02-02", created := 0, changed := 0 }

/-- The end-to-end treatment of one currency-marked amount as it flows
through the program: the segmenter's regex capture (`matchAmount`, first
match found by scanning), `clean_amount`, then the converter's amount
parsing. -/
def pipelineAmount (l : List Char) : Option ℤ :=
  match searchM (fun s => (matchAmount s).map Prod.fst) l with
  | none => none
  | some (sign, value) => parseAmountCents (clean_amount sign value)

/-- Structure of a capture of the starred thousands groups followed by the
optional decimal part: whitespace-and-digit text, then either nothing or a
comma with two digits. -/
def starCapOK (cap : List Char) : Prop :=
  ∃ pre post, cap = pre ++ post ∧
    (∀ c ∈ pre, isSpace c = true ∨ c.isDigit = true) ∧
    (post = [] ∨ ∃ a b : Char, a.isDigit = true ∧ b.isDigit = true ∧
      post = [',', a, b])

/-- Structure of the numeral capture of the amount pattern: one or more
leading digits followed by a `starCapOK` tail. -/
def valueOK (v : List Char) : Prop :=
  ∃ d1 cap, v = d1 ++ cap ∧ d1 ≠ [] ∧ (∀ c ∈ d1, c.isDigit = true) ∧
    starCapOK cap

/-- Shape of a cleaned amount string as stored in an emitted
`IntermediateTxn`: a single `'+'`/`'-'` sign, then a nonempty tail that
begins with a digit, contains no `' '` and no `','`, and consists of
digits, periods, and (possibly) residual non-space whitespace left over
from thousands separators. -/
def amtShape (l : List Char) : Prop :=
  ∃ s t, l = s :: t ∧ (s = '+' ∨ s = '-') ∧ t ≠ [] ∧
    (∃ d t', t = d :: t' ∧ d.isDigit = true) ∧
    (∀ c ∈ t, c.isDigit = true ∨ c = '.' ∨ (isSpace c = true ∧ c ≠ ' ')) ∧
    ',' ∉ t

/-- The transaction the parser extracts from a statement whose thousands
separator is a tab: the tab survives cleanup. -/
def txnTabW : IntermediateTxn :=
  ⟨String.toList "Покупка в магазине", String.toList "01.02.2025 в 10:11",
   String.toList "02.02.2025", [],
   '+' :: '1' :: '\t' :: String.toList "200.50",
   '+' :: '1' :: '\t' :: String.toList "200.50"⟩

/-- A well-formed statement row used as the concrete C10 witness. -/
def txnOkW : IntermediateTxn :=
  ⟨String.toList "Оплата товаров и услуг OZON", String.toList "01.02.2025 в 10:11",
   String.toList "02.02.2025", [], String.toList "+1200.50",
   String.toList "-1200.50"⟩

/-! ### Shared facts about the conversion loop -/

/-- Rounding `pythonRound` never maps a value with nonnegative numerator below
zero. -/
theorem pythonRound_nonneg (q : ℚ) (hq : 0 ≤ q.num) : 0 ≤ pythonRound q := by
  have hf : 0 ≤ ratFloor q :=
    Int.fdiv_nonneg hq (Int.ofNat_nonneg q.den)
  unfold pythonRound
  dsimp only
  split
  · exact hf
  · split
    · omega
    · split
      · exact hf
      · omega

/-- Any record produced by `convertStep` carries its nonzero amount on
exactly one of the two sides. -/
theorem convertStep_one_side (aid rub uid ts : ℕ) (txn : IntermediateTxn)
    (z : ZenTxn) (h : convertStep aid rub uid ts txn = some z) :
    (z.income ≠ 0 ∧ z.outcome = 0) ∨ (z.income = 0 ∧ z.outcome ≠ 0) := by
  simp only [convertStep] at h
  split at h
  · exact Option.noConfusion h
  · split at h
    · exact Option.noConfusion h
    · split at h
      · exact Option.noConfusion h
      · rename_i cents hcents
        split at h
        · exact Option.noConfusion h
        · rename_i hne
          have hz := Option.some.inj h
          subst hz
          by_cases hinc : (effAmount txn).head? = some '+'
          · left
            simp [hinc, hne]
          · right
            constructor
            · simp [hinc]
            · simp only [hinc, if_neg, if_false]
              split
              · omega
              · simpa using hne

/-- The success branch of `convert_to_zenmoney_format` returns exactly the
`filterMap` of `convertStep` over the batch. -/
theorem convert_ok_shape (data : ZenData) (title : List Char) (ts : ℕ)
    (txns : List IntermediateTxn) (res : List ZenTxn)
    (h : convert_to_zenmoney_format data title ts txns = .ok res) :
    ∃ aid rub uid,
      res = txns.filterMap (convertStep aid rub uid ts) := by
  simp only [convert_to_zenmoney_format] at h
  split at h
  · exact Except.noConfusion h
  · rename_i aid rest heq
    split at h
    · exact Except.noConfusion h
    · rename_i inst hfind
      split at h
      · exact Except.noConfusion h
      · exact ⟨aid, inst.id, _, (Except.ok.inj h).symm⟩

/-! ### Claim theorems -/

/-- C1: every record emitted by `convert_to_zenmoney_format` has exactly
one of the income/outcome amounts nonzero and the other exactly zero, and
a transaction whose amount string normalizes to exactly zero is dropped by
the conversion loop and never yields a record. -/
theorem claim_C1 :
    (∀ (data : ZenData) (title : List Char) (ts : ℕ)
       (txns : List IntermediateTxn) (res : List ZenTxn),
       convert_to_zenmoney_format data title ts txns = .ok res →
       ∀ z ∈ res, (z.income ≠ 0 ∧ z.outcome = 0) ∨
         (z.income = 0 ∧ z.outcome ≠ 0)) ∧
    (∀ (aid rub uid ts : ℕ) (txn : IntermediateTxn),
       parseAmountCents (effAmount txn) = some 0 →
       convertStep aid rub uid ts txn = none) := by
  constructor
  · intro data title ts txns res h z hz
    obtain ⟨aid, rub, uid, hres⟩ := convert_ok_shape data title ts txns res h
    subst hres
    obtain ⟨txn, _, hstep⟩ := List.mem_filterMap.mp hz
    exact convertStep_one_side aid rub uid ts txn z hstep
  · intro aid rub uid ts txn hzero
    simp only [convertStep]
    split
    · rfl
    · split
      · rfl
      · split
        · rfl
        · rename_i cents hcents
          rw [hzero] at hcents
          have : cents = 0 := (Option.some.inj hcents).symm
          simp [this]

/-- Witness for C1: a concrete conversion produces a record with exactly
one nonzero side, and a concrete zero-normalizing amount yields no
record. -/
theorem claim_C1_witness :
    ((zNoSignW.income ≠ 0 ∧ zNoSignW.outcome = 0) ∨
      (zNoSignW.income = 0 ∧ zNoSignW.outcome ≠ 0)) ∧
    convertStep 42 7 3 0 txnZeroW = none := by
  constructor
  · exact claim_C1.1 dataW (String.toList "yandex bank") 0 [txnNoSignW]
      [zNoSignW] rfl zNoSignW (by decide)
  · exact claim_C1.2 42 7 3 0 txnZeroW (by decide)

/-- C4 counterexample: a transaction whose amount string `"200"`
normalizes to the positive amount `200`, yet the assembled record leaves
the whole income side empty and populates the outcome side — the side is
not chosen by the sign of the normalized amount. -/
theorem claim_C4_counterexample :
    parseAmountCents (effAmount txnNoSignW2) = some 200 ∧
    convert_to_zenmoney_format dataW (String.toList "yandex bank") 0
      [txnNoSignW2] =
      .ok [{ user := 3, deleted := false, incomeInstrument := 7,
             incomeAccount := none, income := 0, outcomeInstrument := 7,
             outcomeAccount := some 42, outcome := 200, payee := none,
             comment := String.toList "Перевод на карту",
             date := String.toList "2025-02-02", created := 0,
             changed := 0 }] := by
  exact ⟨by decide, rfl⟩

/-- C4 (amended): every assembled record populates exactly one account and
exactly one amount — the income side precisely when the raw amount string
starts with `'+'`, the outcome side otherwise — while both instrument
fields always carry the resolved ruble instrument. -/
theorem claim_C4 (aid rub uid ts : ℕ) (txn : IntermediateTxn) (z : ZenTxn)
    (h : convertStep aid rub uid ts txn = some z) :
    z.incomeInstrument = rub ∧ z.outcomeInstrument = rub ∧
    ((effAmount txn).head? = some '+' →
      z.incomeAccount = some aid ∧ z.outcomeAccount = none ∧
        z.income ≠ 0 ∧ z.outcome = 0) ∧
    ((effAmount txn).head? ≠ some '+' →
      z.incomeAccount = none ∧ z.outcomeAccount = some aid ∧
        z.income = 0 ∧ z.outcome ≠ 0) := by
  simp only [convertStep] at h
  split at h
  · exact Option.noConfusion h
  · split at h
    · exact Option.noConfusion h
    · split at h
      · exact Option.noConfusion h
      · rename_i cents hcents
        split at h
        · exact Option.noConfusion h
        · rename_i hne
          have hz := Option.some.inj h
          subst hz
          by_cases hinc : (effAmount txn).head? = some '+'
          · refine ⟨rfl, rfl, fun _ => ?_, fun hcon => absurd hinc hcon⟩
            simp [hinc, hne]
          · refine ⟨rfl, rfl, fun hcon => absurd hcon hinc, fun _ => ?_⟩
            refine ⟨by simp [hinc], by simp [hinc], by simp [hinc], ?_⟩
            simp only [hinc, if_false]
            split
            · omega
            · simpa using hne

/-- Witness for C4 (amended): the concrete unsigned transaction above. -/
theorem claim_C4_witness :
    zNoSignW.incomeInstrument = 7 ∧ zNoSignW.outcomeInstrument = 7 ∧
    ((effAmount txnNoSignW).head? = some '+' →
      zNoSignW.incomeAccount = some 42 ∧ zNoSignW.outcomeAccount = none ∧
        zNoSignW.income ≠ 0 ∧ zNoSignW.outcome = 0) ∧
    ((effAmount txnNoSignW).head? ≠ some '+' →
      zNoSignW.incomeAccount = none ∧ zNoSignW.outcomeAccount = some 42 ∧
        zNoSignW.income = 0 ∧ zNoSignW.outcome ≠ 0) :=
  claim_C4 42 7 3 0 txnNoSignW zNoSignW (by decide)

/-- C7 counterexample: the amount string `"100"` carries no sign and
normalizes to the positive amount `100`, yet the assembled record leaves
`income` at zero and puts `100` into `outcome` — not the income side the
claim asserts. -/
theorem claim_C7_counterexample :
    parseAmountCents (effAmount txnNoSignW) = some 100 ∧
    convert_to_zenmoney_format dataW (String.toList "yandex bank") 0
      [txnNoSignW] = .ok [zNoSignW] ∧
    zNoSignW.income = 0 ∧ zNoSignW.outcome = 100 := by
  exact ⟨by decide, rfl, rfl, rfl⟩

/-- C7 (amended): an amount string with no leading sign character from
`{+, -, –}` (once whitespace is removed) is parsed as a positive value,
but since the income side is selected only when the raw string starts with
`'+'`, the assembled record populates `outcome` with the (positive) amount
and leaves `income` at zero. -/
theorem claim_C7 (aid rub uid ts : ℕ) (txn : IntermediateTxn) (z : ZenTxn)
    (hplus : ((effAmount txn).filter fun c => ¬ isSpace c).head? ≠ some '+')
    (hminus : ((effAmount txn).filter fun c => ¬ isSpace c).head? ≠ some '-')
    (hdash : ((effAmount txn).filter fun c => ¬ isSpace c).head? ≠ some '–')
    (h : convertStep aid rub uid ts txn = some z) :
    z.income = 0 ∧ 0 < z.outcome := by
  have hrawplus : (effAmount txn).head? ≠ some '+' := by
    intro hc
    apply hplus
    match hh : effAmount txn with
    | [] => rw [hh] at hc; exact Option.noConfusion hc
    | c :: t =>
      rw [hh] at hc
      have : c = '+' := by simpa using hc
      subst this
      simp [List.filter_cons, isSpace]
  simp only [convertStep] at h
  split at h
  · exact Option.noConfusion h
  · split at h
    · exact Option.noConfusion h
    · rename_i date hdate
      split at h
      · exact Option.noConfusion h
      · rename_i cents hcents
        split at h
        · exact Option.noConfusion h
        · rename_i hne
          have hz := Option.some.inj h
          subst hz
          refine ⟨by simp [hrawplus], ?_⟩
          have hpos : 0 ≤ cents := by
            simp only [parseAmountCents] at hcents
            split at hcents
            · exact Option.noConfusion hcents
            · rename_i q hq
              simp only [hminus, hdash, or_self, if_false, hplus,
                if_neg] at hcents
              have := Option.some.inj hcents
              subst this
              apply pythonRound_nonneg
              unfold ratAbs
              split
              · rename_i hqn
                have : (Rat.neg q).num = -q.num := Rat.neg_num q
                omega
              · omega
          simp only [hrawplus, if_false]
          split
          · omega
          · omega

/-- Witness for C7 (amended): the unsigned `"100"` transaction. -/
theorem claim_C7_witness : zNoSignW.income = 0 ∧ 0 < zNoSignW.outcome :=
  claim_C7 42 7 3 0 txnNoSignW zNoSignW (by decide) (by decide) (by decide)
    (by decide)

/-- C8: when the resolution context offers no account with the requested
title, or no instrument recognisable as the ruble, the conversion aborts
with an error before assembling any record, whatever the batch
contains. -/
theorem claim_C8 (data : ZenData) (title : List Char) (ts : ℕ)
    (txns : List IntermediateTxn)
    (hfail : (∀ a ∈ data.accounts, a.title ≠ title) ∨
      (∀ inst ∈ data.instruments, ¬ isRub inst)) :
    ∃ msg, convert_to_zenmoney_format data title ts txns = .error msg := by
  rcases hfail with hacc | hinst
  · refine ⟨String.toList "Не найден счет с названием " ++ title, ?_⟩
    have hfil : data.accounts.filter (fun a => a.title = title) = [] := by
      rw [List.filter_eq_nil_iff]
      intro a ha
      simpa using hacc a ha
    simp [convert_to_zenmoney_format, hfil]
  · have hfind : data.instruments.find? isRub = none := by
      rw [List.find?_eq_none]
      intro x hx
      simpa using hinst x hx
    simp only [convert_to_zenmoney_format]
    split
    · exact ⟨_, rfl⟩
    · rename_i aid rest heq
      rw [hfind]
      exact ⟨_, rfl⟩

/-- Witness for C8: an empty resolution context aborts a nonempty batch. -/
theorem claim_C8_witness :
    ∃ msg, convert_to_zenmoney_format ⟨[], [], []⟩
      (String.toList "yandex bank") 0 [txnPlusW] = .error msg :=
  claim_C8 ⟨[], [], []⟩ (String.toList "yandex bank") 0 [txnPlusW]
    (Or.inl (by decide))

/-- C3 counterexample: the converter's amount normalization (source lines
260–296), applied to the raw string `"+1 200,50 ₽"`, fails — whitespace is
removed but the currency mark is not, so `float('1200.50₽')` raises — and
the transaction would be dropped rather than yield a positive value. -/
theorem claim_C3_counterexample :
    parseAmountCents (String.toList "+1 200,50 ₽") = none := by decide

/-- C3 (amended): the amount `"+1 200,50 ₽"` succeeds once it is routed
the way the program actually routes it — the segmenter's regex captures
sign and numeral (shedding the currency mark), `clean_amount` removes the
thousands space and turns the comma into a period, and the converter then
parses `"+1200.50"` as the positive value `1200.50`, rounding it to the
integer minor unit `1200` (`round(1200.50)` half-to-even) with no `×100`
scaling. -/
theorem claim_C3 :
    clean_amount '+' (String.toList "1 200,50") = String.toList "+1200.50" ∧
    pipelineAmount (String.toList "+1 200,50 ₽") = some 1200 ∧
    pythonRound (mkRat 120050 100) = 1200 := by
  exact ⟨by decide, by decide, by decide⟩

/-- C9: through the amount pipeline, the en-dash string `"–500,00 ₽"`
yields the negative value `-500`, the dash having been normalized to a
minus by `clean_amount`, and the result is identical to that of the
hyphen-minus string `"-500,00 ₽"`. -/
theorem claim_C9 :
    clean_amount '–' (String.toList "500,00") = String.toList "-500.00" ∧
    pipelineAmount (String.toList "–500,00 ₽") = some (-500) ∧
    pipelineAmount (String.toList "-500,00 ₽") = some (-500) := by
  exact ⟨by decide, by decide, by decide⟩

/-! ### Sanitizer lemmas (C5) -/

/-- A substitution pass whose pattern matches at no position leaves the
text unchanged. -/
theorem subAllF_id (m : List Char → Option ℕ) (fuel : ℕ) (l : List Char)
    (h : ∀ i, m (l.drop i) = none) : subAllF m fuel l = l := by
  induction fuel generalizing l with
  | zero => rfl
  | succ fuel ih =>
    cases l with
    | nil => rfl
    | cons c t =>
      have h0 : m (c :: t) = none := by simpa using h 0
      simp only [subAllF, h0]
      congr 1
      exact ih t fun i => by simpa using h (i + 1)

/-- C5 counterexample: removing one page footer can splice the surrounding
text into a new page footer, so one sanitization pass differs from two —
the boilerplate stripping is not idempotent. -/
theorem claim_C5_counterexample :
    sanitize (sanitize (String.toList "СтраСтраница 1 из 2ница 3 из 4")) ≠
      sanitize (String.toList "СтраСтраница 1 из 2ница 3 из 4") := by decide

/-- C5 (amended): a text containing no occurrence of any of the four
boilerplate patterns is returned unchanged (absence of a pattern is a
no-op, with no failure path), but the pass is not idempotent in general,
because deleting a match can splice the surrounding text into a new match
that only a second pass removes. -/
theorem claim_C5 (l : List Char)
    (h1 : ∀ i < l.length, matchPage (l.drop i) = none)
    (h2 : ∀ i < l.length, matchCont (l.drop i) = none)
    (h3 : ∀ i < l.length,
      matchBalance (String.toList "Входящий остаток") (l.drop i) = none)
    (h4 : ∀ i < l.length,
      matchBalance (String.toList "Исходящий остаток") (l.drop i) = none) :
    sanitize l = l := by
  have ext : ∀ (m : List Char → Option ℕ), m [] = none →
      (∀ i < l.length, m (l.drop i) = none) → ∀ i, m (l.drop i) = none := by
    intro m hnil hb i
    by_cases hi : i < l.length
    · exact hb i hi
    · rw [List.drop_eq_nil_of_le (by omega)]
      exact hnil
  unfold sanitize subAll
  rw [subAllF_id _ _ _ (ext _ rfl h1)]
  rw [subAllF_id _ _ _ (ext _ rfl h2)]
  rw [subAllF_id _ _ _ (ext _ rfl h3)]
  rw [subAllF_id _ _ _ (ext _ rfl h4)]

/-- Witness for C5 (amended): a short text free of every pattern. -/
theorem claim_C5_witness : sanitize (String.toList "hello") =
    String.toList "hello" :=
  claim_C5 (String.toList "hello") (by decide) (by decide) (by decide)
    (by decide)

/-! ### Symbolic evaluation of the date normalizer on `DD.MM.YYYY` text -/

/-- Digit characters are digits. -/
theorem dig_isDigit (n : ℕ) : (dig n).isDigit = true := by
  unfold dig
  split <;> decide

/-- Digit characters are not whitespace. -/
theorem dig_not_space (n : ℕ) : isSpace (dig n) = false := by
  unfold dig
  split <;> decide

/-- The value of a digit character below ten. -/
theorem digitVal_dig (n : ℕ) (h : n < 10) : digitVal (dig n) = n := by
  interval_cases n <;> decide

/-- Dropping: `dropWhile` is the identity when the predicate fails on every
element. -/
theorem dropWhile_eq_self_of (p : Char → Bool) (l : List Char)
    (h : ∀ c ∈ l, p c = false) : l.dropWhile p = l := by
  cases l with
  | nil => rfl
  | cons c t => simp [List.dropWhile_cons, h c (by simp)]

/-- Stripping: `strip` is the identity on whitespace-free text. -/
theorem strip_eq_self (l : List Char) (h : ∀ c ∈ l, isSpace c = false) :
    strip l = l := by
  unfold strip
  rw [dropWhile_eq_self_of _ _ h, dropWhile_eq_self_of, List.reverse_reverse]
  intro c hc
  exact h c (by simpa using hc)

/-- Splitting on `' в '` is the identity on space-free text. -/
theorem takeBeforeSub_space_sep (rest l : List Char)
    (h : ∀ c ∈ l, c ≠ ' ') : takeBeforeSub (' ' :: rest) l = l := by
  induction l with
  | nil => rfl
  | cons c t ih =>
    have hc : c ≠ ' ' := h c (by simp)
    have hp : listPre (' ' :: rest) (c :: t) = false := by
      simp [listPre]
      intro he
      exact absurd he.symm hc
    simp only [takeBeforeSub, hp, Bool.false_eq_true, if_false]
    rw [ih fun x hx => h x (by simp [hx])]

/-- Every character of the `DD.MM.YYYY` shape is a digit or a period, so
never whitespace. -/
theorem shape_nospace (a b y : ℕ) :
    ∀ c ∈ pad2 a ++ '.' :: pad2 b ++ '.' :: pad4 y, isSpace c = false := by
  intro c hc
  simp only [pad2, pad4, List.cons_append, List.nil_append, List.mem_cons,
    List.not_mem_nil, or_false] at hc
  rcases hc with rfl | rfl | rfl | rfl | rfl | rfl | rfl | rfl | rfl | rfl <;>
    first
    | exact dig_not_space _
    | decide

/-- On whitespace-free input the date conversion is the template pass
followed by the fallback on the very same text. -/
theorem normalizeDate_nospace (l : List Char)
    (h : ∀ c ∈ l, isSpace c = false) :
    normalizeDate l =
      match tryFormats l with
      | some (y, m, d) => some (isoOf y m d)
      | none => regexFallback l := by
  have h' : ∀ c ∈ l, c ≠ ' ' := by
    intro c hc he
    subst he
    exact absurd (h _ hc) (by decide)
  unfold normalizeDate
  dsimp only
  rw [strip_eq_self l h, takeBeforeSub_space_sep ['в', ' '] l h',
    strip_eq_self l h]

/-- The two-digit field matcher on zero-padded two-digit text with an
in-range value. -/
theorem numField_pad2 (lo hi n : ℕ) (hn : n ≤ 99) (rest : List Char)
    (hlo : lo ≤ n) (hhi : n ≤ hi) :
    numField lo hi (pad2 n ++ rest) = some (n, rest) := by
  have h1 : n / 10 < 10 := by omega
  have h2 : n % 10 < 10 := Nat.mod_lt _ (by omega)
  have hv : 10 * digitVal (dig (n / 10)) + digitVal (dig (n % 10)) = n := by
    rw [digitVal_dig _ h1, digitVal_dig _ h2]
    omega
  simp only [pad2, List.cons_append, List.nil_append, numField]
  rw [if_pos ⟨dig_isDigit _, dig_isDigit _, by omega, by omega⟩, hv]

/-- The two-digit field matcher rejects `"00"` when the field's lower
bound is one. -/
theorem numField_pad2_zero (lo hi : ℕ) (hlo : 1 ≤ lo) (rest : List Char) :
    numField lo hi (pad2 0 ++ rest) = none := by
  have hd : digitVal (dig 0) = 0 := by decide
  simp only [pad2, List.cons_append, List.nil_append, numField, hd]
  rw [if_neg (by omega), if_neg (by omega)]

/-- The four-digit year matcher on zero-padded four-digit text. -/
theorem matchY_pad4 (y : ℕ) (hy : y ≤ 9999) (rest : List Char) :
    matchY (pad4 y ++ rest) = some (y, rest) := by
  have h1 : y / 1000 < 10 := by omega
  have h2 : y / 100 % 10 < 10 := Nat.mod_lt _ (by omega)
  have h3 : y / 10 % 10 < 10 := Nat.mod_lt _ (by omega)
  have h4 : y % 10 < 10 := Nat.mod_lt _ (by omega)
  have hv : 1000 * digitVal (dig (y / 1000)) +
      100 * digitVal (dig (y / 100 % 10)) +
      10 * digitVal (dig (y / 10 % 10)) + digitVal (dig (y % 10)) = y := by
    rw [digitVal_dig _ h1, digitVal_dig _ h2, digitVal_dig _ h3,
      digitVal_dig _ h4]
    omega
  simp only [pad4, List.cons_append, List.nil_append, matchY]
  rw [if_pos ⟨dig_isDigit _, dig_isDigit _, dig_isDigit _, dig_isDigit _⟩, hv]

/-- The four-digit year matcher rejects text whose third character is a
period. -/
theorem matchY_dot3 (c1 c2 : Char) (rest : List Char) :
    matchY (c1 :: c2 :: '.' :: rest) = none := by
  cases rest with
  | nil => rfl
  | cons c4 rest' => simp [matchY]

/-- Every month has at least 28 days. -/
theorem daysInMonth_ge_28 (y m : ℕ) : 28 ≤ daysInMonth y m := by
  unfold daysInMonth
  split
  · split <;> omega
  · split <;> omega

/-- A literal template character consumes itself. -/
theorem litC_same (c : Char) (rest : List Char) :
    litC c (c :: rest) = some rest := by simp [litC]

/-- A literal template character rejects a different character. -/
theorem litC_diff (c d : Char) (h : d ≠ c) (rest : List Char) :
    litC c (d :: rest) = none := by simp [litC, h]

/-- Every month has at most 31 days. -/
theorem daysInMonth_le_31 (y m : ℕ) : daysInMonth y m ≤ 31 := by
  unfold daysInMonth
  split
  · split <;> omega
  · split <;> omega

/-- The first template on zero-padded day-first text: it succeeds exactly
when the calendar date is constructible. -/
theorem fmt1_pad (d m y : ℕ) (hd1 : 1 ≤ d) (hd : d ≤ 31) (hm1 : 1 ≤ m)
    (hm : m ≤ 12) (hy : y ≤ 9999) :
    fmt1 (pad2 d ++ '.' :: pad2 m ++ '.' :: pad4 y) =
      if validDate y m d then some (y, m, d) else none := by
  have hY := matchY_pad4 y hy []
  rw [List.append_nil] at hY
  have hD : numField 1 31 (pad2 d ++ '.' :: pad2 m ++ '.' :: pad4 y) =
      some (d, '.' :: pad2 m ++ '.' :: pad4 y) :=
    numField_pad2 1 31 d (by omega) _ hd1 hd
  have hM : numField 1 12 (pad2 m ++ '.' :: pad4 y) = some (m, '.' :: pad4 y) :=
    numField_pad2 1 12 m (by omega) _ hm1 hm
  unfold fmt1 matchD matchM
  rw [hD]
  simp [litC, hM, hY]

/-- All five templates fail on zero-padded `DD.MM.YYYY` text whose first
or second group is `00`. -/
theorem tryFormats_pad_fail (a b y : ℕ) (ha : a ≤ 12) (hb : b ≤ 12)
    (hy : y ≤ 9999) (h0 : a = 0 ∨ b = 0) :
    tryFormats (pad2 a ++ '.' :: pad2 b ++ '.' :: pad4 y) = none := by
  have hy3 : matchY (pad2 a ++ '.' :: pad2 b ++ '.' :: pad4 y) = none := by
    simp only [pad2, List.cons_append, List.nil_append]
    exact matchY_dot3 _ _ _
  unfold tryFormats
  by_cases haz : a = 0
  · subst haz
    have hD : numField 1 31 (pad2 0 ++ '.' :: pad2 b ++ '.' :: pad4 y) =
        none := numField_pad2_zero 1 31 (by omega) _
    unfold fmt1 fmt2 fmt3 fmt4 fmt5 matchD
    rw [hD, hy3]
    simp
  · have ha1 : 1 ≤ a := by omega
    have hb0 : b = 0 := by omega
    subst hb0
    have hD : numField 1 31 (pad2 a ++ '.' :: pad2 0 ++ '.' :: pad4 y) =
        some (a, '.' :: pad2 0 ++ '.' :: pad4 y) :=
      numField_pad2 1 31 a (by omega) _ ha1 (by omega)
    have hM : numField 1 12 (pad2 0 ++ '.' :: pad4 y) = none :=
      numField_pad2_zero 1 12 (by omega) _
    unfold fmt1 fmt2 fmt3 fmt4 fmt5 matchD matchM
    rw [hD, hy3]
    simp [litC, hM]

/-- The two-digit group of the fallback regex on zero-padded text. -/
theorem matchG2_pad2 (n : ℕ) (hn : n ≤ 99) (rest : List Char) :
    matchG2 (pad2 n ++ rest) = some (n, rest) := by
  have h1 : n / 10 < 10 := by omega
  have h2 : n % 10 < 10 := Nat.mod_lt _ (by omega)
  have hv : 10 * digitVal (dig (n / 10)) + digitVal (dig (n % 10)) = n := by
    rw [digitVal_dig _ h1, digitVal_dig _ h2]
    omega
  simp only [pad2, List.cons_append, List.nil_append, matchG2]
  rw [if_pos ⟨dig_isDigit _, dig_isDigit _⟩, hv]

/-- The fallback regex finds the three digit groups at the start of
zero-padded `DD.MM.YYYY` text. -/
theorem searchDMY_pad (a b y : ℕ) (ha : a ≤ 99) (hb : b ≤ 99)
    (hy : y ≤ 9999) :
    searchM matchDMYAt (pad2 a ++ '.' :: pad2 b ++ '.' :: pad4 y) =
      some (a, b, y) := by
  have hY := matchY_pad4 y hy []
  rw [List.append_nil] at hY
  have hG1 : matchG2 (pad2 a ++ '.' :: pad2 b ++ '.' :: pad4 y) =
      some (a, '.' :: pad2 b ++ '.' :: pad4 y) := matchG2_pad2 a ha _
  have hG2 : matchG2 (pad2 b ++ '.' :: pad4 y) = some (b, '.' :: pad4 y) :=
    matchG2_pad2 b hb _
  have hAt : matchDMYAt (pad2 a ++ '.' :: pad2 b ++ '.' :: pad4 y) =
      some (a, b, y) := by
    unfold matchDMYAt dmyTail matchY4
    rw [hG1]
    simp [sepDot, hG2, hY]
  have hcons : pad2 a ++ '.' :: pad2 b ++ '.' :: pad4 y =
      dig (a / 10) :: (dig (a % 10) :: '.' :: pad2 b ++ '.' :: pad4 y) := by
    simp [pad2]
  rw [hcons] at hAt ⊢
  unfold searchM
  rw [hAt]
  rfl

/-- C6: for every constructible calendar date with a four-digit year,
rendering it as zero-padded `DD.MM.YYYY` and running the date conversion
returns exactly the date in `YYYY-MM-DD` form. -/
theorem claim_C6 (y m d : ℕ) (hy : 1000 ≤ y) (hv : validDate y m d = true) :
    normalizeDate (pad2 d ++ '.' :: pad2 m ++ '.' :: pad4 y) =
      some (isoOf y m d) := by
  have hb : 1 ≤ y ∧ y ≤ 9999 ∧ 1 ≤ m ∧ m ≤ 12 ∧ 1 ≤ d ∧
      d ≤ daysInMonth y m := by simpa [validDate] using hv
  have hd31 : d ≤ 31 := le_trans hb.2.2.2.2.2 (daysInMonth_le_31 y m)
  rw [normalizeDate_nospace _ (shape_nospace d m y)]
  unfold tryFormats
  rw [fmt1_pad d m y hb.2.2.2.2.1 hd31 hb.2.2.1 hb.2.2.2.1 hb.2.1,
    if_pos hv]
  rfl

/-- Witness for C6: the concrete date 27 July 2025. -/
theorem claim_C6_witness :
    normalizeDate (pad2 27 ++ '.' :: pad2 7 ++ '.' :: pad4 2025) =
      some (isoOf 2025 7 27) :=
  claim_C6 2025 7 27 (by omega) (by decide)

/-- C2: the ambiguous `"03.04.2025"` normalizes to `2025-04-03` (day 3,
month 4); in general, on zero-padded `DD.MM.YYYY` text whose two leading
groups are both at most 12, the day-first reading `(day=a, month=b)` is
returned whenever it forms a constructible date, and the month-first
reading `(month=a, day=b)` is used only when day-first fails. -/
theorem claim_C2 :
    normalizeDate (String.toList "03.04.2025") =
      some (String.toList "2025-04-03") ∧
    ∀ a b y : ℕ, a ≤ 12 → b ≤ 12 → 1000 ≤ y → y ≤ 9999 →
      normalizeDate (pad2 a ++ '.' :: pad2 b ++ '.' :: pad4 y) =
        (if validDate y b a then some (isoOf y b a)
         else if validDate y a b then some (isoOf y a b) else none) := by
  constructor
  · decide
  · intro a b y ha hb hy1 hy2
    rw [normalizeDate_nospace _ (shape_nospace a b y)]
    by_cases h0 : 1 ≤ a ∧ 1 ≤ b
    · have hval : validDate y b a = true := by
        simp only [validDate, decide_eq_true_eq]
        refine ⟨by omega, by omega, h0.2, hb, h0.1,
          le_trans (by omega) (daysInMonth_ge_28 y b)⟩
      unfold tryFormats
      rw [fmt1_pad a b y h0.1 (by omega) h0.2 hb hy2, if_pos hval,
        if_pos hval]
      rfl
    · have h0' : a = 0 ∨ b = 0 := by omega
      have hv1 : validDate y b a = false := by
        simp only [validDate, decide_eq_false_iff_not]
        omega
      have hv2 : validDate y a b = false := by
        simp only [validDate, decide_eq_false_iff_not]
        omega
      rw [tryFormats_pad_fail a b y ha hb hy2 h0']
      simp only []
      unfold regexFallback
      rw [searchDMY_pad a b y (by omega) (by omega) hy2]
      simp only [hv1, hv2]
      rw [if_neg (by omega), if_neg (by omega)]

/-- Witness for C2: the general clause applied at the concrete ambiguous
groups 3 and 4 with year 2025. -/
theorem claim_C2_witness :
    normalizeDate (pad2 3 ++ '.' :: pad2 4 ++ '.' :: pad4 2025) =
      (if validDate 2025 4 3 then some (isoOf 2025 4 3)
       else if validDate 2025 3 4 then some (isoOf 2025 3 4) else none) :=
  claim_C2.2 3 4 2025 (by omega) (by omega) (by omega) (by omega)

/-! ### The shape of emitted amount strings (C10) -/

/-- Case analysis on a successful `Option.orElse`. -/
theorem orElse_eq_some_cases {α : Type} (a : Option α) (f : Unit → Option α)
    (c : α) (h : a.orElse f = some c) :
    a = some c ∨ (a = none ∧ f () = some c) := by
  rcases a with _ | x
  · exact Or.inr ⟨rfl, h⟩
  · left
    rw [Option.orElse] at h
    simpa using h

/-- The optional decimal part captures nothing or a comma and two
digits. -/
theorem amtOpt_spec (l : List Char) (cap : List Char) (k : ℕ)
    (h : amtOpt l = some (cap, k)) :
    cap = [] ∨ ∃ a b : Char, a.isDigit = true ∧ b.isDigit = true ∧
      cap = [',', a, b] := by
  unfold amtOpt at h
  rcases orElse_eq_some_cases _ _ _ h with h1 | ⟨_, h2⟩
  · split at h1
    · rename_i a b t
      split at h1
      · rename_i hd
        rcases Option.map_eq_some'.mp h1 with ⟨k', _, hpair⟩
        right
        exact ⟨a, b, hd.1, hd.2, (Prod.mk.injEq _ _ _ _ ▸ hpair).1.symm⟩
      · exact Option.noConfusion h1
    · exact Option.noConfusion h1
  · rcases Option.map_eq_some'.mp h2 with ⟨k', _, hpair⟩
    exact Or.inl (Prod.mk.injEq _ _ _ _ ▸ hpair).1.symm

/-- The capture of the starred thousands groups (with its optional decimal
tail) is `starCapOK`. -/
theorem amtStarF_spec (fuel : ℕ) (l cap : List Char) (k : ℕ)
    (h : amtStarF fuel l = some (cap, k)) : starCapOK cap := by
  induction fuel generalizing l cap k with
  | zero => exact absurd h (by simp [amtStarF])
  | succ fuel ih =>
    unfold amtStarF at h
    rcases orElse_eq_some_cases _ _ _ h with h1 | ⟨_, h2⟩
    · split at h1
      · exact Option.noConfusion h1
      · split at h1
        · rename_i a b c t heq
          split at h1
          · rename_i hd
            split at h1
            · rename_i cap' k' hrec
              have hpair := Option.some.inj h1
              have hcap : l.takeWhile isSpace ++ a :: b :: c :: cap' = cap :=
                (Prod.mk.injEq _ _ _ _ ▸ hpair).1
              obtain ⟨pre', post', hc', hpre', hpost'⟩ := ih _ _ _ hrec
              refine ⟨l.takeWhile isSpace ++ a :: b :: c :: pre', post',
                ?_, ?_, hpost'⟩
              · rw [← hcap, hc']
                simp
              · intro x hx
                rcases List.mem_append.mp hx with hx | hx
                · exact Or.inl (List.mem_takeWhile_imp hx)
                · rcases hx with _ | ⟨_, hx⟩
                  · exact Or.inr hd.1
                  · rcases hx with _ | ⟨_, hx⟩
                    · exact Or.inr hd.2.1
                    · rcases hx with _ | ⟨_, hx⟩
                      · exact Or.inr hd.2.2
                      · exact hpre' x hx
            · exact Option.noConfusion h1
          · exact Option.noConfusion h1
        · exact Option.noConfusion h1
    · exact ⟨[], cap, by simp, by simp, amtOpt_spec _ _ _ h2⟩

/-- The numeral capture of the amount pattern is `valueOK`. -/
theorem amtNum_spec (l v : List Char) (n : ℕ)
    (h : amtNum l = some (v, n)) : valueOK v := by
  unfold amtNum at h
  have hTry : ∀ k, (if (l.take k).length = k ∧ (l.take k).all Char.isDigit
        then (amtStar (l.drop k)).map fun (cap, n') =>
          (l.take k ++ cap, k + n')
        else none) = some (v, n) → 1 ≤ k → valueOK v := by
    intro k hk h1k
    split at hk
    · rename_i hcond
      rcases Option.map_eq_some'.mp hk with ⟨⟨cap, n'⟩, hstar, hpair⟩
      have hv : l.take k ++ cap = v := (Prod.mk.injEq _ _ _ _ ▸ hpair).1
      refine ⟨l.take k, cap, hv.symm, ?_, ?_, amtStarF_spec _ _ _ _ hstar⟩
      · intro hnil
        rw [hnil] at hcond
        simp at hcond
        omega
      · intro c hc
        exact List.all_eq_true.mp hcond.2 c hc
    · exact Option.noConfusion hk
  rcases orElse_eq_some_cases _ _ _ h with h3 | ⟨_, h23⟩
  · exact hTry 3 h3 (by omega)
  · rcases orElse_eq_some_cases _ _ _ h23 with h2 | ⟨_, h1⟩
    · exact hTry 2 h2 (by omega)
    · exact hTry 1 h1 (by omega)

/-- A successful amount match captures a sign from `{+, -, –}` and a
`valueOK` numeral. -/
theorem matchAmount_spec (l : List Char) (s : Char) (v : List Char) (k : ℕ)
    (h : matchAmount l = some ((s, v), k)) :
    (s = '+' ∨ s = '-' ∨ s = '–') ∧ valueOK v := by
  unfold matchAmount at h
  split at h
  · rename_i c t
    split at h
    · rename_i hsign
      rcases Option.map_eq_some'.mp h with ⟨⟨vv, n⟩, hnum, hpair⟩
      have h1 := (Prod.mk.injEq _ _ _ _ ▸ hpair).1
      have hs : c = s := congrArg Prod.fst h1
      have hv : vv = v := congrArg Prod.snd h1
      subst hs
      subst hv
      exact ⟨hsign, amtNum_spec _ _ _ hnum⟩
    · exact Option.noConfusion h
  · exact Option.noConfusion h

/-- Everything returned by the findall driver comes from a successful
match. -/
theorem findAllMF_mem {α : Type} (m : List Char → Option (α × ℕ))
    (fuel : ℕ) (l : List Char) (a : α) (h : a ∈ findAllMF m fuel l) :
    ∃ l' k, m l' = some (a, k) := by
  induction fuel generalizing l with
  | zero => exact absurd h (by simp [findAllMF])
  | succ fuel ih =>
    cases l with
    | nil => exact absurd h (by simp [findAllMF])
    | cons c t =>
      unfold findAllMF at h
      split at h
      · rename_i a' k' heq
        rcases List.mem_cons.mp h with rfl | h'
        · exact ⟨c :: t, k', heq⟩
        · exact ih _ h'
      · exact ih _ h

/-- A digit character is neither a space nor a comma. -/
theorem digit_ne_space_comma (c : Char) (h : c.isDigit = true) :
    c ≠ ' ' ∧ c ≠ ',' := by
  constructor <;> intro he <;> subst he <;> simp at h

/-- Pointwise-identity maps are the identity. -/
theorem map_eq_self_of (f : Char → Char) (l : List Char)
    (h : ∀ a ∈ l, f a = a) : l.map f = l := by
  induction l with
  | nil => rfl
  | cons c t ih => simp [h c (by simp), ih fun a ha => h a (by simp [ha])]

/-- Function `clean_amount` applied to a matched sign and numeral yields an
`amtShape` string. -/
theorem clean_amount_shape (s : Char) (v : List Char)
    (hs : s = '+' ∨ s = '-' ∨ s = '–') (hv : valueOK v) :
    amtShape (clean_amount s v) := by
  obtain ⟨d1, cap, hvc, hd1ne, hd1dig, pre, post, hcap, hpre, hpost⟩ := hv
  subst hvc
  subst hcap
  unfold clean_amount
  set f : Char → Char := fun c => if c = ',' then '.' else c with hf
  refine ⟨if s = '–' then '-' else s,
    ((d1 ++ (pre ++ post)).filter fun c => c ≠ ' ').map f, rfl, ?_, ?_⟩
  · rcases hs with rfl | rfl | rfl <;> simp
  · cases d1 with
    | nil => exact absurd rfl hd1ne
    | cons dh d1' =>
      have hdh : dh.isDigit = true := hd1dig dh (by simp)
      have hdh' := digit_ne_space_comma dh hdh
      have hhead : ((dh :: d1' ++ (pre ++ post)).filter
          fun c => c ≠ ' ').map f =
          dh :: (((d1' ++ (pre ++ post)).filter fun c => c ≠ ' ').map f) := by
        rw [List.cons_append, List.filter_cons, if_pos (by simpa using hdh'.1)]
        rw [List.map_cons]
        congr 1
        simp [hf, hdh'.2]
      rw [hhead]
      refine ⟨by simp, ⟨dh, _, rfl, hdh⟩, ?_, ?_⟩
      · intro c hc
        rw [← hhead] at hc
        rcases List.mem_map.mp hc with ⟨c', hc', rfl⟩
        have hc'mem := List.mem_filter.mp hc'
        have hc'ne : c' ≠ ' ' := by simpa using hc'mem.2
        rcases List.mem_append.mp hc'mem.1 with hm | hm
        · have hdig := hd1dig c' hm
          have := digit_ne_space_comma c' hdig
          left
          simpa [hf, this.2] using hdig
        · rcases List.mem_append.mp hm with hm | hm
          · rcases hpre c' hm with hsp | hdig
            · have hne : c' ≠ ',' := by
                intro he
                subst he
                simp [isSpace] at hsp
              right; right
              constructor
              · simpa [hf, hne] using hsp
              · simpa [hf, hne] using hc'ne
            · have := digit_ne_space_comma c' hdig
              left
              simpa [hf, this.2] using hdig
          · rcases hpost with rfl | ⟨a, b, hadig, hbdig, rfl⟩
            · simp at hm
            · have hm' : c' = ',' ∨ c' = a ∨ c' = b := by simpa using hm
              rcases hm' with rfl | rfl | rfl
              · right; left
                simp [hf]
              · have hne := (digit_ne_space_comma _ hadig).2
                left
                simpa [hf, hne] using hadig
              · have hne := (digit_ne_space_comma _ hbdig).2
                left
                simpa [hf, hne] using hbdig
      · intro hcomma
        rw [← hhead] at hcomma
        rcases List.mem_map.mp hcomma with ⟨c', _, hfc⟩
        by_cases he : c' = ','
        · rw [he] at hfc
          simp [hf] at hfc
        · rw [show f c' = c' by simp [hf, he]] at hfc
          exact he hfc

/-- Every transaction the segmentation loop emits comes from a successful
`segmentAt`. -/
theorem segLoop_mem (text : List Char)
    (anchors : List (ℕ × ℕ × List Char × List Char)) (prevEnd : ℕ)
    (txn : IntermediateTxn) (h : txn ∈ segLoop text prevEnd anchors) :
    ∃ pe s e d tm, segmentAt text pe s e d tm = some txn := by
  induction anchors generalizing prevEnd with
  | nil => exact absurd h (by simp [segLoop])
  | cons anchor rest ih =>
    obtain ⟨s, e, d, tm⟩ := anchor
    unfold segLoop at h
    split at h
    · rename_i t heq
      rcases List.mem_cons.mp h with rfl | h'
      · exact ⟨prevEnd, s, e, d, tm, heq⟩
      · exact ih _ h'
    · exact ih _ h

/-- The amount fields of a segment come from the first two captures of the
amount scan over the post-anchor window. -/
theorem segmentAt_amounts (text : List Char) (pe s e : ℕ)
    (d tm : List Char) (txn : IntermediateTxn)
    (h : segmentAt text pe s e d tm = some txn) :
    ∃ p1 p2 : Char × List Char,
      p1 ∈ findAllM matchAmount (text.drop e) ∧
      p2 ∈ findAllM matchAmount (text.drop e) ∧
      txn.transactionAmount = clean_amount p1.1 p1.2 ∧
      txn.accountAmount = clean_amount p2.1 p2.2 := by
  simp only [segmentAt] at h
  split at h
  · exact Option.noConfusion h
  · split at h
    · rename_i s1 v1 s2 v2 restAll heq
      split at h
      · exact Option.noConfusion h
      · split at h
        · exact Option.noConfusion h
        · have hz := Option.some.inj h
          subst hz
          exact ⟨(s1, v1), (s2, v2), by rw [heq]; simp, by rw [heq]; simp,
            rfl, rfl⟩
    · exact Option.noConfusion h

/-- C10 (amended): every amount field of an emitted transaction starts
with exactly `'+'` or `'-'` (the en dash already replaced), followed by a
nonempty digit-led numeral with all `' '` characters removed and every
comma replaced by a period; non-space whitespace matched inside a
thousands separator may survive in the tail, but sign classification by
the first character is always well-defined. -/
theorem claim_C10 (rawText : List Char) (txn : IntermediateTxn)
    (h : txn ∈ parse_bank_statement rawText) :
    amtShape txn.transactionAmount ∧ amtShape txn.accountAmount := by
  unfold parse_bank_statement at h
  obtain ⟨pe, s, e, d, tm, hseg⟩ := segLoop_mem _ _ _ _ h
  obtain ⟨p1, p2, hm1, hm2, he1, he2⟩ := segmentAt_amounts _ _ _ _ _ _ _ hseg
  constructor
  · rw [he1]
    obtain ⟨l', k, hmat⟩ := findAllMF_mem _ _ _ _ hm1
    obtain ⟨hsign, hval⟩ := matchAmount_spec l' p1.1 p1.2 k hmat
    exact clean_amount_shape _ _ hsign hval
  · rw [he2]
    obtain ⟨l', k, hmat⟩ := findAllMF_mem _ _ _ _ hm2
    obtain ⟨hsign, hval⟩ := matchAmount_spec l' p2.1 p2.2 k hmat
    exact clean_amount_shape _ _ hsign hval

/-- C10 counterexample: the amount regex accepts any whitespace (`\s+`) as
a thousands separator but `clean_amount` removes only `' '`, so a
tab-separated amount is emitted as `"+1\t200.50"` — its tail is not just
digits with a period, refuting the claimed shape (the leading sign is
still a proper `'+'`). -/
theorem claim_C10_counterexample :
    parse_bank_statement (String.toList
        "Покупка в магазине 01.02.2025 в 10:11 02.02.2025 +1\t200,50 ₽ +1\t200,50 ₽") =
      [txnTabW] ∧
    '\t' ∈ txnTabW.transactionAmount.tail ∧
    '\t'.isDigit = false ∧ '\t' ≠ '.' := by
  exact ⟨by decide, by decide, by decide, by decide⟩

/-- Witness for C10 (amended): the shape holds for the transaction parsed
out of a concrete ordinary statement. -/
theorem claim_C10_witness :
    amtShape txnOkW.transactionAmount ∧ amtShape txnOkW.accountAmount :=
  claim_C10 (String.toList
      "Оплата товаров и услуг OZON 01.02.2025 в 10:11 02.02.2025 +1 200,50 ₽ -1 200,50 ₽")
    txnOkW (by decide)

end PdfZen
